import Mathlib

/-!
Verification of the streaming token-to-audio decode pipeline of
`realtime_phone_agents` (Orpheus / Together TTS backends).

The definitions below are a shallow embedding of
`src/realtime_phone_agents/tts/models/orpheus_runpod/model.py` and of the
empty-text guard of `src/realtime_phone_agents/tts/models/together/model.py`.
Python strings are modelled as `List Char`; the external audio codec
(`convert_to_audio`, whose module is not part of the repository sources) and
the HTTP layer are parameters of the pipeline, as the spec prescribes for
external collaborators.
-/

set_option maxHeartbeats 1000000
set_option maxRecDepth 10000

/-! ### Models of the Python string primitives used by the decoder -/

/-- Whitespace characters recognised by Python `str.strip()` (ASCII part). -/
def isPySpace (c : Char) : Bool :=
  c = ' ' || c = '\t' || c = '\n' || c = '\x0d' || c = '\x0b' || c = '\x0c'

/-- Model of Python `str.strip()`: drop whitespace from both ends. -/
def pyStrip (s : List Char) : List Char :=
  ((s.dropWhile isPySpace).reverse.dropWhile isPySpace).reverse

/-- Digit-run parser used by the model of Python `int()`: consumes decimal
digits, allowing a single `_` between two digits (Python numeral grammar);
`acc = none` means no digit has been consumed yet, `afterSep` that the
previous character was the separator `_`. -/
def pyDigits : List Char → Option Nat → Bool → Option Nat
  | [], acc, afterSep => if afterSep then none else acc
  | c :: rest, acc, afterSep =>
    if c.isDigit then pyDigits rest (some ((acc.getD 0) * 10 + (c.toNat - 48))) false
    else if c = '_' ∧ acc.isSome = true ∧ afterSep = false then pyDigits rest acc true
    else none

/-- Model of Python `int(s)` in base 10: strip whitespace, optional sign,
then a digit run; any failure raises `ValueError`, modelled as `none`. -/
def pyInt? (s : List Char) : Option Int :=
  let t := pyStrip s
  match t with
  | [] => none
  | c :: rest =>
    if c = '+' then (pyDigits rest none false).map (fun n => (n : Int))
    else if c = '-' then (pyDigits rest none false).map (fun n => -(n : Int))
    else (pyDigits t none false).map (fun n => (n : Int))

/-- The decimal digit character for `d` (callers only use `d < 10`). -/
def digitChar : Nat → Char
  | 0 => '0' | 1 => '1' | 2 => '2' | 3 => '3' | 4 => '4'
  | 5 => '5' | 6 => '6' | 7 => '7' | 8 => '8' | _ => '9'

/-- Accumulator loop of the model of Python `str(n)`. -/
def pyStrAux : Nat → List Char → List Char
  | 0, acc => acc
  | n + 1, acc => pyStrAux ((n + 1) / 10) (digitChar ((n + 1) % 10) :: acc)
decreasing_by exact Nat.div_lt_self (Nat.succ_pos n) (by decide)

/-- Model of Python `str(n)` for a natural number `n`: its decimal digits. -/
def pyStr (n : Nat) : List Char :=
  if n = 0 then ['0'] else pyStrAux n []

/-- Scan positions `k, k-1, …, 0` for the rightmost occurrence of `pat`. -/
def rfindAux (pat s : List Char) : Nat → Option Nat
  | 0 => if pat.isPrefixOf s then some 0 else none
  | i + 1 => if pat.isPrefixOf (s.drop (i + 1)) then some (i + 1) else rfindAux pat s i

/-- Model of Python `str.rfind(pat)`: the largest index at which `pat`
occurs in `s` (as `Option` instead of `-1`). -/
def rfindIdx (pat s : List Char) : Option Nat :=
  rfindAux pat s s.length

/-- `CUSTOM_TOKEN_PREFIX` from `orpheus_runpod/options.py` (renamed). -/
def customTokenMarker : List Char := "<custom_token_".data

/-- Decidable check that `t` contains no occurrence of the marker
(positions beyond `t.length` cannot hold one since the marker is nonempty). -/
def noMarkerOcc (t : List Char) : Bool :=
  (List.range (t.length + 1)).all (fun i => !(customTokenMarker.isPrefixOf (t.drop i)))

/-! ### `OrpheusTTSModel._turn_token_into_id` -/

/-- Faithful translation of `OrpheusTTSModel._turn_token_into_id`:
strip the token text, find the last occurrence of the marker, require the
remainder to start with the marker and end with `>`, parse the embedded
numeral and apply the position-dependent offset correction. -/
def turn_token_into_id (token_string : List Char) (index : Nat) : Option Int :=
  let t := pyStrip token_string
  match rfindIdx customTokenMarker t with
  | none => none
  | some last_token_start =>
    let last_token := t.drop last_token_start
    if customTokenMarker.isPrefixOf last_token && (last_token.getLast? == some '>') then
      match pyInt? ((last_token.drop 14).dropLast) with
      | some numeral => some (numeral - 10 - ((index % 7 : Nat) : Int) * 4096)
      | none => none
    else none

/-! ### `OrpheusTTSModel._convert_buffer` and the external codec -/

/-- Possible behaviours of the external `convert_to_audio` collaborator on one
call: it may return PCM audio (given here directly as the int16 samples that
`np.frombuffer` would produce), return `None`, or raise an exception. -/
inductive CodecResult where
  | bytes (samples : List Int)
  | null
  | raises
deriving DecidableEq

/-- The external audio codec, a parameter of the pipeline
(`convert_to_audio(multiframe, count)`). -/
abbrev Codec := List Int → Nat → CodecResult

/-- Faithful translation of `OrpheusTTSModel._convert_buffer`: delegate to the
codec; a `None` result is logged and returned as `none`; an exception is
caught, logged and returned as `none`. -/
def convert_buffer (codec : Codec) (multiframe : List Int) (count : Nat) :
    Option (List Int) :=
  match codec multiframe count with
  | .bytes samples => some samples
  | .null => none
  | .raises => none

/-! ### `OrpheusTTSModel._token_decoder_sync` -/

/-- State of the decode loop of `_token_decoder_sync` (`buffer`, `count`),
extended with the record of its observable behaviour: the decode calls made
(token text and the position passed), the windows handed to
`_convert_buffer` (slice and count), and the audio chunks yielded. -/
structure DecRun where
  buffer : List Int
  count : Nat
  calls : List (List Char × Nat)
  windows : List (List Int × Nat)
  chunks : List (List Int)
deriving DecidableEq

/-- Python `buffer[-28:]` generalised: the last `n` elements of `l`. -/
def lastN (n : Nat) (l : List α) : List α := l.drop (l.length - n)

/-- One iteration of the loop body of `_token_decoder_sync` for one incoming
token text: decode at position `count`; drop `None`/non-positive IDs;
otherwise append, increment, and on `count % 7 == 0 and count > 27` hand
`buffer[-28:]` to `_convert_buffer`, yielding the chunk when the result is
non-`None` and non-empty. -/
def decStep (codec : Codec) (st : DecRun) (token_text : List Char) : DecRun :=
  let calls := st.calls ++ [(token_text, st.count)]
  match turn_token_into_id token_text st.count with
  | none => { st with calls := calls }
  | some token_id =>
    if token_id ≤ 0 then { st with calls := calls }
    else
      let buffer := st.buffer ++ [token_id]
      let count := st.count + 1
      if count % 7 = 0 ∧ 27 < count then
        let w := lastN 28 buffer
        let windows := st.windows ++ [(w, count)]
        match convert_buffer codec w count with
        | some audio =>
          if 0 < audio.length then
            { buffer := buffer, count := count, calls := calls,
              windows := windows, chunks := st.chunks ++ [audio] }
          else
            { buffer := buffer, count := count, calls := calls,
              windows := windows, chunks := st.chunks }
        | none =>
          { buffer := buffer, count := count, calls := calls,
            windows := windows, chunks := st.chunks }
      else
        { st with buffer := buffer, count := count, calls := calls }

/-- Running `_token_decoder_sync` over a finite list of token texts. -/
def decodeRun (codec : Codec) (tokens : List (List Char)) : DecRun :=
  tokens.foldl (decStep codec) ⟨[], 0, [], [], []⟩

/-! ### Closed forms for the decode loop -/

/-- The acceptance test of the loop: the decoded ID when it is neither `None`
nor `≤ 0`. -/
def acceptTok (t : List Char) (position : Nat) : Option Int :=
  match turn_token_into_id t position with
  | some id => if id ≤ 0 then none else some id
  | none => none

/-- One step of the accepted-ID sequence: append the ID when accepted. -/
def acceptStep (ids : List Int) (t : List Char) : List Int :=
  match acceptTok t ids.length with
  | some id => ids ++ [id]
  | none => ids

/-- The sequence of accepted token IDs of a token-text stream: each token is
decoded at the running count of previously accepted tokens. -/
def acceptedIds (tokens : List (List Char)) : List Int :=
  tokens.foldl acceptStep []

/-- The accepted counts in `[1..L]` at which the loop emits a window:
multiples of 7 strictly above 27. -/
def triggers (L : Nat) : List Nat :=
  ((List.range L).map (· + 1)).filter (fun c => decide (c % 7 = 0 ∧ 27 < c))

/-- Closed form of the windows handed to `_convert_buffer` by a run whose
accepted IDs are `ids`. -/
def windowsCF (ids : List Int) : List (List Int × Nat) :=
  (triggers ids.length).map (fun c => (lastN 28 (ids.take c), c))

/-- The chunk, if any, that one window produces after `_convert_buffer` and
the `is not None and size > 0` filter. -/
def chunkOfWindow (codec : Codec) (w : List Int × Nat) : Option (List Int) :=
  match convert_buffer codec w.1 w.2 with
  | some audio => if 0 < audio.length then some audio else none
  | none => none

/-- Closed form of the chunks yielded by a run whose accepted IDs are `ids`. -/
def chunksCF (codec : Codec) (ids : List Int) : List (List Int) :=
  (windowsCF ids).filterMap (chunkOfWindow codec)

/-- Closed form of the decode calls: the i-th token is decoded at the count
of tokens accepted among the first i tokens. -/
def callsCF (tokens : List (List Char)) : List (List Char × Nat) :=
  (List.range tokens.length).map
    (fun i => (tokens.getD i [], (acceptedIds (tokens.take i)).length))

/-! ### `OrpheusTTSModel._generate_tokens_sync` and the HTTP layer -/

/-- The result of iterating a Python generator to exhaustion: the items it
yielded, and whether it terminated by raising instead of returning. -/
structure GenRun (α : Type) where
  items : List α
  raised : Bool
deriving DecidableEq

/-- One line of the streamed completion response, classified the way the loop
in `_generate_tokens_sync` classifies it: blank lines, lines not starting
with `"data: "`, the `[DONE]` terminator, undecodable JSON, JSON without a
non-empty `choices` array, or `choices[0]["text"]`. -/
inductive SSELine where
  | blank
  | other (s : List Char)
  | done
  | badJson
  | noChoices
  | choice (text : List Char)
deriving DecidableEq

/-- The token texts yielded by the response-line loop of
`_generate_tokens_sync`: blank / non-data / bad-JSON / no-choices lines are
skipped, `[DONE]` breaks, and only non-empty `choices[0]["text"]` values are
yielded. -/
def iterate_lines : List SSELine → List (List Char)
  | [] => []
  | .blank :: rest => iterate_lines rest
  | .other _ :: rest => iterate_lines rest
  | .done :: _ => []
  | .badJson :: rest => iterate_lines rest
  | .noChoices :: rest => iterate_lines rest
  | .choice t :: rest => if t.isEmpty then iterate_lines rest else t :: iterate_lines rest

/-- Whether the loop reaches a `[DONE]` line (and hence breaks before the
response iterator can raise mid-stream). -/
def hitsDone : List SSELine → Bool
  | [] => false
  | .done :: _ => true
  | _ :: rest => hitsDone rest

/-- The options consumed by the Orpheus pipeline. The float-valued sampling
parameters (`temperature`, `top_p`, `repetition_penalty`) ride along in the
request payload and influence no control flow; they are omitted here. -/
structure OrpheusTTSOptions where
  model : List Char
  voice : List Char
  maxTokens : Nat
  sampleRate : Nat

/-- The request body that `_generate_tokens_sync` posts (fields that matter
to the embedding; `stream` is always `true`). -/
structure Payload where
  model : List Char
  prompt : List Char
  maxTokens : Nat
  stream : Bool
deriving DecidableEq

/-- `OrpheusTTSModel._format_prompt`. -/
def format_prompt (prompt voice : List Char) : List Char :=
  "<|audio|>".data ++ voice ++ ": ".data ++ prompt ++ "<|eot_id|>".data

/-- The payload built by `_generate_tokens_sync` for a synthesis call. -/
def mkPayload (text : List Char) (o : OrpheusTTSOptions) : Payload :=
  ⟨o.model, format_prompt text o.voice, o.maxTokens, true⟩

/-- Behaviour of the network on one streaming POST: a `requests.RequestException`
(connection failure or non-2xx status), or a response body whose line iterator
may itself raise a transport error once exhausted (`failsMidStream`). -/
inductive HttpResult where
  | transportError
  | body (lines : List SSELine) (failsMidStream : Bool)

/-- Faithful translation of `OrpheusTTSModel._generate_tokens_sync` over a
network modelled as a function from the posted payload to its behaviour.
Returns the generator run together with the list of HTTP requests issued;
note that the request is posted unconditionally — the function has no
empty-text guard. A `RequestException` is logged and re-raised; a mid-stream
transport error is avoided only when `[DONE]` breaks the loop first. -/
def generate_tokens_sync (net : Payload → HttpResult) (text : List Char)
    (o : OrpheusTTSOptions) : GenRun (List Char) × List Payload :=
  let req := mkPayload text o
  match net req with
  | .transportError => (⟨[], true⟩, [req])
  | .body lines failsMidStream =>
    (⟨iterate_lines lines, if hitsDone lines then false else failsMidStream⟩, [req])

/-! ### The streaming entry points and the sync-to-async bridge -/

/-- `_token_decoder_sync` driven over a token source that may raise: chunks
are yielded lazily while tokens arrive, so every chunk derived from the
yielded tokens is emitted before the source's terminal exception, which then
propagates (the decode loop has no handler). -/
def token_decoder_sync (codec : Codec) (src : GenRun (List Char)) :
    GenRun (List Int) :=
  ⟨(decodeRun codec src.items).chunks, src.raised⟩

/-- Model of a `try: … except Exception: log` block around a generator body:
the items already yielded stand, the terminal exception is swallowed. -/
def catchAll (r : GenRun α) : GenRun α := ⟨r.items, false⟩

/-- Faithful translation of `OrpheusTTSModel.stream_tts_sync`: pair each
chunk with the sample rate; any exception of the inner pipeline is caught
and logged (`except Exception`), never re-raised. -/
def stream_tts_sync (codec : Codec) (net : Payload → HttpResult)
    (text : List Char) (o : OrpheusTTSOptions) : GenRun (Nat × List Int) :=
  let toks := (generate_tokens_sync net text o).1
  let inner := token_decoder_sync codec toks
  catchAll ⟨inner.items.map (fun c => (o.sampleRate, c)), inner.raised⟩

/-- The queue contents produced by the background worker of `stream_tts`:
each produced chunk is enqueued in production order inside `try:`, and the
`finally:` block enqueues the terminal sentinel `None` on every exit path,
error or not. -/
def worker_queue (r : GenRun α) : List (Option α) := r.items.map some ++ [none]

/-- The consumer loop of `stream_tts`: dequeue until the sentinel, yielding
every chunk before it. -/
def consume : List (Option α) → List α
  | [] => []
  | none :: _ => []
  | some c :: rest => c :: consume rest

/-- Faithful translation of `OrpheusTTSModel.stream_tts` (async path): the
worker feeds the queue from `stream_tts_sync`, the consumer drains it up to
the sentinel and terminates without error. -/
def stream_tts (codec : Codec) (net : Payload → HttpResult) (text : List Char)
    (o : OrpheusTTSOptions) : GenRun (Nat × List Int) :=
  ⟨consume (worker_queue (stream_tts_sync codec net text o)), false⟩

/-! ### Collect-all modes -/

/-- Little-endian two's-complement bytes of one int16 sample
(`ndarray.tobytes` on a `dtype=int16` array). -/
def int16ToBytes (v : Int) : List Nat :=
  let u := (v % 65536).toNat
  [u % 256, u / 256]

/-- `ndarray.tobytes()` of an int16 sample array. -/
def ndarray_tobytes (samples : List Int) : List Nat :=
  samples.flatMap int16ToBytes

/-- `np.concatenate(audio_chunks) if audio_chunks else np.zeros(0, dtype=np.int16)`. -/
def np_concat_or_zeros (chunks : List (List Int)) : List Int :=
  if chunks.isEmpty then [] else chunks.flatten

/-- Faithful translation of `OrpheusTTSModel.tts` (async collect-all):
collect every chunk of the async stream (any exception logged and swallowed),
concatenate or default to an empty buffer, return the bytes. -/
def tts (codec : Codec) (net : Payload → HttpResult) (text : List Char)
    (o : OrpheusTTSOptions) : List Nat :=
  ndarray_tobytes
    (np_concat_or_zeros ((stream_tts codec net text o).items.map Prod.snd))

/-- Faithful translation of `OrpheusTTSModel.tts_blocking` (sync collect-all):
collect every chunk of the sync stream (any exception logged and swallowed),
concatenate or default to an empty buffer, return it with the sample rate. -/
def tts_blocking (codec : Codec) (net : Payload → HttpResult) (text : List Char)
    (o : OrpheusTTSOptions) : Nat × List Int :=
  (o.sampleRate,
    np_concat_or_zeros ((stream_tts_sync codec net text o).items.map Prod.snd))

/-! ### The Together backend's empty-text guard -/

/-- Faithful translation of `TogetherTTS.stream_tts_sync`: the
`if not text or not text.strip(): return` guard short-circuits before the
audio stream (here an opaque collaborator returning its run and the requests
it issued) is ever consulted; otherwise chunks are paired with the sample
rate under a `try: … except Exception: log` block. -/
def together_stream_tts_sync (audio : List Char → GenRun (List Int) × List Payload)
    (text : List Char) (rate : Nat) : GenRun (Nat × List Int) × List Payload :=
  if text.isEmpty || (pyStrip text).isEmpty then (⟨[], false⟩, [])
  else
    let r := audio text
    (catchAll ⟨r.1.items.map (fun c => (rate, c)), r.1.raised⟩, r.2)

/-- Faithful translation of `TogetherTTS.stream_tts`: the same guard runs
before the worker thread is started; otherwise the sync stream is bridged
through the sentinel-terminated queue. -/
def together_stream_tts (audio : List Char → GenRun (List Int) × List Payload)
    (text : List Char) (rate : Nat) : GenRun (Nat × List Int) × List Payload :=
  if text.isEmpty || (pyStrip text).isEmpty then (⟨[], false⟩, [])
  else
    let s := together_stream_tts_sync audio text rate
    (⟨consume (worker_queue s.1), false⟩, s.2)

/-! ### Specification-side helper definitions and concrete test inputs -/

/-- The value of a decimal digit string, folded left onto accumulator `a`. -/
def digitsVal (ds : List Char) (a : Nat) : Nat :=
  ds.foldl (fun a c => a * 10 + (c.toNat - 48)) a

/-- A token text whose ID is strictly positive at every position
(`30000 - 10 - (p % 7) * 4096 ≥ 5414`). -/
def tok30000 : List Char := "<custom_token_30000>".data

/-- 35 valid tokens: enough for two windows (counts 28 and 35). -/
def toksW : List (List Char) := List.replicate 35 tok30000

/-- 42 valid tokens: enough for three windows (counts 28, 35 and 42). -/
def toksF : List (List Char) := List.replicate 42 tok30000

/-- A codec that always decodes one sample. -/
def codecOne : Codec := fun _ _ => CodecResult.bytes [1]

/-- A codec that raises on the second window (count 35) and decodes one
sample otherwise. -/
def codecFail35 : Codec := fun _ c => if c = 35 then CodecResult.raises else CodecResult.bytes [1]

/-- Concrete options for the test scenarios. -/
def optsC : OrpheusTTSOptions := ⟨"canopylabs/orpheus-tts".data, "tara".data, 1200, 24000⟩

/-- A network on which every request fails with a transport error. -/
def netErr : Payload → HttpResult := fun _ => HttpResult.transportError

/-- A network that returns an empty, cleanly terminated body. -/
def netEmptyBody : Payload → HttpResult := fun _ => HttpResult.body [] false

/-- A response body of 28 valid tokens with no `[DONE]` line. -/
def linesF : List SSELine := List.replicate 28 (SSELine.choice tok30000)

/-- A network that streams 28 valid tokens and then raises a transport
error mid-stream. -/
def netMidErr : Payload → HttpResult := fun _ => HttpResult.body linesF true

/-- The same body as `netMidErr` but terminating cleanly. -/
def netMidOk : Payload → HttpResult := fun _ => HttpResult.body linesF false

/-- A concrete audio collaborator for the Together backend: one chunk, one
request recorded. -/
def audioT : List Char → GenRun (List Int) × List Payload :=
  fun t => (⟨[[1]], false⟩, [mkPayload t optsC])

/-! ### Helper lemmas: decimal numerals -/

theorem digitChar_isDigit (d : Nat) : (digitChar d).isDigit = true := by
  rcases d with _|_|_|_|_|_|_|_|_|d <;> rfl

theorem digitChar_val (d : Nat) (h : d < 10) : (digitChar d).toNat - 48 = d := by
  interval_cases d <;> rfl

theorem digitsVal_cons (c : Char) (ds : List Char) (a : Nat) :
    digitsVal (c :: ds) a = digitsVal ds (a * 10 + (c.toNat - 48)) := rfl

theorem digitsVal_append (ds es : List Char) (a : Nat) :
    digitsVal (ds ++ es) a = digitsVal es (digitsVal ds a) :=
  List.foldl_append _ _ _ _

theorem pyDigits_digits : ∀ (ds : List Char) (acc : Option Nat) (afterSep : Bool),
    ds ≠ [] → (∀ c ∈ ds, c.isDigit = true) →
    pyDigits ds acc afterSep = some (digitsVal ds (acc.getD 0)) := by
  intro ds
  induction ds with
  | nil => intro acc afterSep h _; exact absurd rfl h
  | cons c rest ih =>
    intro acc afterSep _ hdig
    have hc : c.isDigit = true := hdig c (List.mem_cons_self c rest)
    rw [pyDigits, if_pos hc]
    cases rest with
    | nil => rfl
    | cons d rest2 =>
      rw [ih (some ((acc.getD 0) * 10 + (c.toNat - 48))) false (by simp)
        (fun x hx => hdig x (List.mem_cons_of_mem _ hx))]
      rfl

theorem pyStrAux_acc (n : Nat) : ∀ acc : List Char, pyStrAux n acc = pyStrAux n [] ++ acc := by
  induction n using Nat.strong_induction_on with
  | _ n ih =>
    match n with
    | 0 => intro acc; simp [pyStrAux]
    | m + 1 =>
      intro acc
      rw [pyStrAux, pyStrAux,
        ih ((m + 1) / 10) (Nat.div_lt_self (Nat.succ_pos m) (by decide))
          (digitChar ((m + 1) % 10) :: acc),
        ih ((m + 1) / 10) (Nat.div_lt_self (Nat.succ_pos m) (by decide))
          [digitChar ((m + 1) % 10)]]
      simp

theorem pyStrAux_digits (n : Nat) :
    ∀ c ∈ pyStrAux n [], c.isDigit = true := by
  induction n using Nat.strong_induction_on with
  | _ n ih =>
    match n with
    | 0 => intro c hc; simp [pyStrAux] at hc
    | m + 1 =>
      intro c hc
      rw [pyStrAux, pyStrAux_acc] at hc
      rcases List.mem_append.mp hc with h | h
      · exact ih ((m + 1) / 10) (Nat.div_lt_self (Nat.succ_pos m) (by decide)) c h
      · rw [List.mem_singleton.mp h]; exact digitChar_isDigit _

theorem pyStrAux_ne_nil (n : Nat) (hn : 0 < n) : pyStrAux n [] ≠ [] := by
  match n with
  | m + 1 =>
    rw [pyStrAux, pyStrAux_acc]
    exact fun h => by simp at h

theorem pyStrAux_val : ∀ n : Nat, 0 < n → ∀ a : Nat,
    digitsVal (pyStrAux n []) a = a * 10 ^ (pyStrAux n []).length + n := by
  intro n
  induction n using Nat.strong_induction_on with
  | _ n ih =>
    intro hn a
    match n, hn with
    | m + 1, _ =>
      by_cases hsmall : m + 1 < 10
      · have h10 : (m + 1) / 10 = 0 := Nat.div_eq_of_lt hsmall
        have hmod : (m + 1) % 10 = m + 1 := Nat.mod_eq_of_lt hsmall
        rw [pyStrAux, h10, hmod, pyStrAux]
        show digitsVal [digitChar (m + 1)] a = _
        rw [digitsVal_cons, digitChar_val (m + 1) hsmall]
        show a * 10 + (m + 1) = a * 10 ^ 1 + (m + 1)
        rw [pow_one]
      · have hq : 0 < (m + 1) / 10 := Nat.div_pos (Nat.le_of_not_lt hsmall) (by decide)
        rw [pyStrAux, pyStrAux_acc]
        rw [digitsVal_append, digitsVal_cons,
          ih ((m + 1) / 10) (Nat.div_lt_self (Nat.succ_pos m) (by decide)) hq a]
        show digitsVal [] _ = _
        rw [digitsVal]
        rw [List.length_append, List.length_singleton, pow_succ, ← Nat.mul_assoc,
          digitChar_val ((m + 1) % 10) (Nat.mod_lt _ (by decide))]
        have hdm : 10 * ((m + 1) / 10) + (m + 1) % 10 = m + 1 := Nat.div_add_mod (m + 1) 10
        set X := a * 10 ^ (pyStrAux ((m + 1) / 10) []).length with hX
        rw [List.foldl_nil]
        omega

theorem pyStr_digits (n : Nat) : ∀ c ∈ pyStr n, c.isDigit = true := by
  rw [pyStr]
  split
  · intro c hc; rw [List.mem_singleton.mp hc]; rfl
  · exact pyStrAux_digits n

theorem pyStr_ne_nil (n : Nat) : pyStr n ≠ [] := by
  rw [pyStr]
  split
  · simp
  · exact pyStrAux_ne_nil n (Nat.pos_of_ne_zero (by assumption))

theorem pyStr_val (n : Nat) : digitsVal (pyStr n) 0 = n := by
  rw [pyStr]
  split
  · subst n; rfl
  · rw [pyStrAux_val n (Nat.pos_of_ne_zero (by assumption)) 0, Nat.zero_mul, Nat.zero_add]

theorem pyDigits_pyStr (n : Nat) : pyDigits (pyStr n) none false = some n := by
  rw [pyDigits_digits (pyStr n) none false (pyStr_ne_nil n) (pyStr_digits n)]
  rw [show (none : Option Nat).getD 0 = 0 from rfl, pyStr_val]

/-! ### Helper lemmas: strip -/

theorem dropWhile_eq_self_of (p : Char → Bool) (l : List Char)
    (h : ∀ c ∈ l, p c = false) : l.dropWhile p = l := by
  cases l with
  | nil => rfl
  | cons c cs =>
    rw [List.dropWhile_cons, h c (List.mem_cons_self c cs)]
    simp

theorem pyStrip_eq_self (l : List Char) (h : ∀ c ∈ l, isPySpace c = false) :
    pyStrip l = l := by
  rw [pyStrip, dropWhile_eq_self_of _ _ h,
    dropWhile_eq_self_of _ _ (fun c hc => h c (List.mem_reverse.mp hc)),
    List.reverse_reverse]

theorem pyStrip_eq_nil (l : List Char) (h : ∀ c ∈ l, isPySpace c = true) :
    pyStrip l = [] := by
  rw [pyStrip, List.dropWhile_eq_nil_iff.mpr h]
  rfl

/-! ### Helper lemmas: rightmost find -/

theorem rfindAux_eq_none (pat s : List Char) (k : Nat)
    (h : ∀ i, i ≤ k → pat.isPrefixOf (s.drop i) = false) : rfindAux pat s k = none := by
  induction k with
  | zero =>
    have h0 := h 0 (Nat.le_refl 0)
    rw [List.drop_zero] at h0
    simp [rfindAux, h0]
  | succ k ih =>
    rw [rfindAux]
    simp [h (k + 1) (Nat.le_refl _)]
    exact ih (fun i hi => h i (Nat.le_succ_of_le hi))

theorem rfindAux_eq_zero (pat s : List Char) (k : Nat)
    (h0 : pat.isPrefixOf s = true)
    (h : ∀ i, 0 < i → pat.isPrefixOf (s.drop i) = false) : rfindAux pat s k = some 0 := by
  induction k with
  | zero => simp [rfindAux, h0]
  | succ k ih =>
    rw [rfindAux]
    simp [h (k + 1) (Nat.succ_pos k)]
    exact ih

theorem rfindAux_isPrefixOf (pat s : List Char) :
    ∀ (k i : Nat), rfindAux pat s k = some i → pat.isPrefixOf (s.drop i) = true := by
  intro k
  induction k with
  | zero =>
    intro i h
    rw [rfindAux] at h
    by_cases hp : pat.isPrefixOf s = true
    · rw [if_pos hp] at h
      cases h
      rw [List.drop_zero]
      exact hp
    · rw [if_neg hp] at h
      cases h
  | succ k ih =>
    intro i h
    rw [rfindAux] at h
    by_cases hp : pat.isPrefixOf (s.drop (k + 1)) = true
    · rw [if_pos hp] at h
      cases h
      exact hp
    · rw [if_neg hp] at h
      exact ih i h

/-! ### Helper lemmas: the token marker -/

theorem customTokenMarker_eq : customTokenMarker = '<' :: "custom_token_".data := by decide

theorem customTokenMarker_length : customTokenMarker.length = 14 := by decide

theorem isDigit_not_space (c : Char) (h : c.isDigit = true) : isPySpace c = false := by
  cases hb : isPySpace c
  · rfl
  · rw [isPySpace] at hb
    simp only [Bool.or_eq_true, decide_eq_true_eq] at hb
    rcases hb with ((((h1 | h1) | h1) | h1) | h1) | h1 <;>
      (subst h1; exact absurd h (by decide))

theorem dropWhile_decomp (t : List Char) :
    t.dropWhile isPySpace =
      pyStrip t ++ ((t.dropWhile isPySpace).reverse.takeWhile isPySpace).reverse := by
  conv_lhs => rw [← List.reverse_reverse (t.dropWhile isPySpace),
    ← List.takeWhile_append_dropWhile isPySpace (t.dropWhile isPySpace).reverse]
  rw [List.reverse_append]
  rfl

theorem occurrence_transfer (pat t pre mid suf : List Char)
    (hT : t = pre ++ (pat ++ mid) ++ suf) :
    ∃ j, pat.isPrefixOf (t.drop j) = true := by
  refine ⟨pre.length, ?_⟩
  rw [hT, List.append_assoc, List.drop_left, List.append_assoc]
  exact List.isPrefixOf_iff_prefix.mpr ⟨_, rfl⟩

theorem strip_occurrence_transfer (t : List Char) (i : Nat)
    (h : customTokenMarker.isPrefixOf ((pyStrip t).drop i) = true) :
    ∃ j, customTokenMarker.isPrefixOf (t.drop j) = true := by
  obtain ⟨r, hr⟩ := List.isPrefixOf_iff_prefix.mp h
  have hsplit : pyStrip t = (pyStrip t).take i ++ (customTokenMarker ++ r) := by
    rw [hr]
    exact (List.take_append_drop i (pyStrip t)).symm
  refine occurrence_transfer customTokenMarker t
    (t.takeWhile isPySpace ++ (pyStrip t).take i) r
    ((t.dropWhile isPySpace).reverse.takeWhile isPySpace).reverse ?_
  calc t = t.takeWhile isPySpace ++ t.dropWhile isPySpace :=
        (List.takeWhile_append_dropWhile _ _).symm
    _ = t.takeWhile isPySpace ++
          (pyStrip t ++ ((t.dropWhile isPySpace).reverse.takeWhile isPySpace).reverse) :=
        congrArg _ (dropWhile_decomp t)
    _ = t.takeWhile isPySpace ++
          (((pyStrip t).take i ++ (customTokenMarker ++ r)) ++
            ((t.dropWhile isPySpace).reverse.takeWhile isPySpace).reverse) :=
        congrArg (fun x => t.takeWhile isPySpace ++
          (x ++ ((t.dropWhile isPySpace).reverse.takeWhile isPySpace).reverse)) hsplit
    _ = (t.takeWhile isPySpace ++ (pyStrip t).take i) ++ (customTokenMarker ++ r) ++
          ((t.dropWhile isPySpace).reverse.takeWhile isPySpace).reverse := by
        simp [List.append_assoc]

theorem noMarkerOcc_drop (t : List Char) (h : noMarkerOcc t = true) :
    ∀ j, customTokenMarker.isPrefixOf (t.drop j) = false := by
  intro j
  by_cases hj : j ≤ t.length
  · have := List.all_eq_true.mp h j (List.mem_range.mpr (Nat.lt_succ_of_le hj))
    simpa using this
  · rw [List.drop_eq_nil_of_le (Nat.le_of_not_le hj)]
    decide

theorem pyInt_pyStr (n : Nat) : pyInt? (pyStr n) = some (n : Int) := by
  have hstrip : pyStrip (pyStr n) = pyStr n :=
    pyStrip_eq_self _ (fun c hc => isDigit_not_space c (pyStr_digits n c hc))
  cases h : pyStr n with
  | nil => exact absurd h (pyStr_ne_nil n)
  | cons c rest =>
    have hc : c.isDigit = true := pyStr_digits n c (h ▸ List.mem_cons_self c rest)
    have hp : c ≠ '+' := by intro he; rw [he] at hc; exact absurd hc (by decide)
    have hm : c ≠ '-' := by intro he; rw [he] at hc; exact absurd hc (by decide)
    rw [h] at hstrip
    simp only [pyInt?]
    rw [hstrip]
    simp only [if_neg hp, if_neg hm]
    rw [← h, pyDigits_pyStr]
    rfl

theorem turn_token_marker (n p : Nat) :
    turn_token_into_id (customTokenMarker ++ (pyStr n ++ ['>'])) p =
      some ((n : Int) - 10 - ((p % 7 : Nat) : Int) * 4096) := by
  have hnosp : ∀ c ∈ customTokenMarker ++ (pyStr n ++ ['>']), isPySpace c = false := by
    have hmark : ∀ x ∈ customTokenMarker, isPySpace x = false := by decide
    intro c hc
    rcases List.mem_append.mp hc with h | h
    · exact hmark c h
    · rcases List.mem_append.mp h with h2 | h2
      · exact isDigit_not_space c (pyStr_digits n c h2)
      · rw [List.mem_singleton.mp h2]; rfl
  have hstrip : pyStrip (customTokenMarker ++ (pyStr n ++ ['>'])) =
      customTokenMarker ++ (pyStr n ++ ['>']) := pyStrip_eq_self _ hnosp
  have hpre : customTokenMarker.isPrefixOf (customTokenMarker ++ (pyStr n ++ ['>'])) = true :=
    List.isPrefixOf_iff_prefix.mpr ⟨_, rfl⟩
  have hno_lt : ∀ c ∈ "custom_token_".data ++ (pyStr n ++ ['>']), c ≠ '<' := by
    have hall : ∀ x ∈ "custom_token_".data, x ≠ '<' := by decide
    intro c hc
    rcases List.mem_append.mp hc with h | h
    · exact hall c h
    · rcases List.mem_append.mp h with h2 | h2
      · intro he
        have hd := pyStr_digits n c h2
        rw [he] at hd
        exact absurd hd (by decide)
      · rw [List.mem_singleton.mp h2]; decide
  have htail : (customTokenMarker ++ (pyStr n ++ ['>'])).drop 1 =
      "custom_token_".data ++ (pyStr n ++ ['>']) := by
    rw [customTokenMarker_eq]; rfl
  have hnone : ∀ i, 0 < i →
      customTokenMarker.isPrefixOf ((customTokenMarker ++ (pyStr n ++ ['>'])).drop i) = false := by
    intro i hi
    cases hb : customTokenMarker.isPrefixOf ((customTokenMarker ++ (pyStr n ++ ['>'])).drop i) with
    | false => rfl
    | true =>
      exfalso
      obtain ⟨r, hr⟩ := List.isPrefixOf_iff_prefix.mp hb
      have hmem : '<' ∈ (customTokenMarker ++ (pyStr n ++ ['>'])).drop i := by
        rw [← hr, customTokenMarker_eq]
        exact List.mem_append.mpr (Or.inl (List.mem_cons_self _ _))
      have hdd : (customTokenMarker ++ (pyStr n ++ ['>'])).drop i =
          ((customTokenMarker ++ (pyStr n ++ ['>'])).drop 1).drop (i - 1) := by
        rw [List.drop_drop]
        congr 1
        omega
      rw [hdd, htail] at hmem
      exact hno_lt '<' (List.drop_subset _ _ hmem) rfl
  have hfind : rfindIdx customTokenMarker (customTokenMarker ++ (pyStr n ++ ['>'])) = some 0 := by
    rw [rfindIdx]
    exact rfindAux_eq_zero _ _ _ hpre hnone
  have hlast : (customTokenMarker ++ (pyStr n ++ ['>'])).getLast? = some '>' := by
    rw [← List.append_assoc]
    exact List.getLast?_concat _
  have hdrop14 : (customTokenMarker ++ (pyStr n ++ ['>'])).drop 14 = pyStr n ++ ['>'] := by
    conv_lhs => rw [show (14 : Nat) = customTokenMarker.length from by decide]
    exact List.drop_left _ _
  simp only [turn_token_into_id]
  rw [hstrip, hfind]
  simp only [List.drop_zero, hpre, hlast, Bool.true_and, beq_self_eq_true, if_true]
  rw [hdrop14, List.dropLast_concat, pyInt_pyStr]

theorem turn_token_no_marker (t : List Char) (p : Nat) (h : noMarkerOcc t = true) :
    turn_token_into_id t p = none := by
  have hnone : ∀ i, customTokenMarker.isPrefixOf ((pyStrip t).drop i) = false := by
    intro i
    cases hb : customTokenMarker.isPrefixOf ((pyStrip t).drop i) with
    | false => rfl
    | true =>
      obtain ⟨j, hj⟩ := strip_occurrence_transfer t i hb
      rw [noMarkerOcc_drop t h j] at hj
      cases hj
  have hfind : rfindIdx customTokenMarker (pyStrip t) = none := by
    rw [rfindIdx]
    exact rfindAux_eq_none _ _ _ (fun i _ => hnone i)
  simp only [turn_token_into_id]
  rw [hfind]

theorem turn_token_no_gt (t : List Char) (p : Nat)
    (h : (pyStrip t).getLast? ≠ some '>') : turn_token_into_id t p = none := by
  simp only [turn_token_into_id]
  cases hf : rfindIdx customTokenMarker (pyStrip t) with
  | none => rfl
  | some i =>
    rw [rfindIdx] at hf
    have hpref := rfindAux_isPrefixOf _ _ _ _ hf
    have hne : (pyStrip t).drop i ≠ [] := by
      intro hnil
      rw [hnil] at hpref
      exact absurd hpref (by decide)
    have hlast : ((pyStrip t).drop i).getLast? = (pyStrip t).getLast? := by
      conv_rhs => rw [← List.take_append_drop i (pyStrip t)]
      rw [List.getLast?_append_of_ne_nil _ hne]
    have hbeq : ((((pyStrip t).drop i).getLast?) == some '>') = false := by
      rw [hlast]
      exact beq_eq_false_iff_ne.mpr h
    simp only [hbeq, Bool.and_false, Bool.false_eq_true, if_false]

theorem turn_token_bad_numeral (t : List Char) (p i : Nat)
    (hf : rfindIdx customTokenMarker (pyStrip t) = some i)
    (hparse : pyInt? ((((pyStrip t).drop i).drop 14).dropLast) = none) :
    turn_token_into_id t p = none := by
  simp only [turn_token_into_id]
  rw [hf]
  cases hguard : (customTokenMarker.isPrefixOf ((pyStrip t).drop i) &&
      (((pyStrip t).drop i).getLast? == some '>')) with
  | false => simp only [hguard, Bool.false_eq_true, if_false]
  | true => simp only [hguard, if_true, hparse]

/-! ### Helper lemmas: fold steps of the decode loop -/

theorem decodeRun_snoc (codec : Codec) (ts : List (List Char)) (t : List Char) :
    decodeRun codec (ts ++ [t]) = decStep codec (decodeRun codec ts) t := by
  rw [decodeRun, decodeRun, List.foldl_append, List.foldl_cons, List.foldl_nil]

theorem acceptedIds_snoc (ts : List (List Char)) (t : List Char) :
    acceptedIds (ts ++ [t]) = acceptStep (acceptedIds ts) t := by
  rw [acceptedIds, acceptedIds, List.foldl_append, List.foldl_cons, List.foldl_nil]

theorem acceptStep_some (ids : List Int) (t : List Char) (id : Int)
    (h : acceptTok t ids.length = some id) : acceptStep ids t = ids ++ [id] := by
  rw [acceptStep, h]

theorem acceptStep_none (ids : List Int) (t : List Char)
    (h : acceptTok t ids.length = none) : acceptStep ids t = ids := by
  rw [acceptStep, h]

theorem triggers_snoc (L : Nat) :
    triggers (L + 1) =
      triggers L ++ (if (L + 1) % 7 = 0 ∧ 27 < L + 1 then [L + 1] else []) := by
  rw [triggers, triggers, List.range_succ, List.map_append, List.filter_append]
  congr 1
  by_cases hP : (L + 1) % 7 = 0 ∧ 27 < L + 1 <;>
    simp [hP, List.filter_cons, List.filter_nil]

theorem triggers_mem (L c : Nat) (hc : c ∈ triggers L) :
    c % 7 = 0 ∧ 27 < c ∧ c ≤ L := by
  rw [triggers] at hc
  obtain ⟨hmem, hP⟩ := List.mem_filter.mp hc
  obtain ⟨i, hi, rfl⟩ := List.mem_map.mp hmem
  have := List.mem_range.mp hi
  simp only [decide_eq_true_eq] at hP
  exact ⟨hP.1, hP.2, by omega⟩

theorem triggers_eq (L : Nat) :
    triggers L = (List.range ((L - 21) / 7)).map (fun k => 28 + 7 * k) := by
  induction L with
  | zero => rfl
  | succ L ih =>
    rw [triggers_snoc, ih]
    by_cases hP : (L + 1) % 7 = 0 ∧ 27 < L + 1
    · rw [if_pos hP]
      have h1 : (L + 1 - 21) / 7 = (L - 21) / 7 + 1 := by omega
      have h2 : 28 + 7 * ((L - 21) / 7) = L + 1 := by omega
      rw [h1, List.range_succ, List.map_append, List.map_singleton, h2]
    · rw [if_neg hP]
      have h1 : (L + 1 - 21) / 7 = (L - 21) / 7 := by omega
      rw [h1, List.append_nil]

theorem triggers_length (L : Nat) : (triggers L).length = (L - 21) / 7 := by
  rw [triggers_eq, List.length_map, List.length_range]

theorem take_snoc_of_le (ids : List Int) (id : Int) (c : Nat) (hc : c ≤ ids.length) :
    (ids ++ [id]).take c = ids.take c := by
  rw [List.take_append_eq_append_take, Nat.sub_eq_zero_of_le hc, List.take_zero,
    List.append_nil]

theorem windowsCF_snoc (ids : List Int) (id : Int) :
    windowsCF (ids ++ [id]) =
      windowsCF ids ++
        (if (ids.length + 1) % 7 = 0 ∧ 27 < ids.length + 1
         then [(lastN 28 (ids ++ [id]), ids.length + 1)] else []) := by
  rw [windowsCF, windowsCF, List.length_append, List.length_singleton, triggers_snoc,
    List.map_append]
  congr 1
  · exact List.map_congr_left
      (fun c hc => by rw [take_snoc_of_le ids id c (triggers_mem _ _ hc).2.2])
  · by_cases hP : (ids.length + 1) % 7 = 0 ∧ 27 < ids.length + 1
    · rw [if_pos hP, if_pos hP, List.map_singleton]
      rw [show ids.length + 1 = (ids ++ [id]).length from by simp, List.take_length]
    · rw [if_neg hP, if_neg hP, List.map_nil]

theorem chunksCF_snoc (codec : Codec) (ids : List Int) (id : Int) :
    chunksCF codec (ids ++ [id]) =
      chunksCF codec ids ++
        (if (ids.length + 1) % 7 = 0 ∧ 27 < ids.length + 1
         then (chunkOfWindow codec (lastN 28 (ids ++ [id]), ids.length + 1)).toList
         else []) := by
  rw [chunksCF, chunksCF, windowsCF_snoc, List.filterMap_append]
  congr 1
  by_cases hP : (ids.length + 1) % 7 = 0 ∧ 27 < ids.length + 1
  · rw [if_pos hP, if_pos hP]
    cases h : chunkOfWindow codec (lastN 28 (ids ++ [id]), ids.length + 1) <;>
      simp [List.filterMap_cons, h]
  · rw [if_neg hP, if_neg hP, List.filterMap_nil]

theorem callsCF_snoc (ts : List (List Char)) (t : List Char) :
    callsCF (ts ++ [t]) = callsCF ts ++ [(t, (acceptedIds ts).length)] := by
  rw [callsCF, callsCF, List.length_append, List.length_singleton, List.range_succ,
    List.map_append]
  congr 1
  · apply List.map_congr_left
    intro i hi
    have hilt : i < ts.length := List.mem_range.mp hi
    have hgd : (ts ++ [t]).getD i [] = ts.getD i [] := by
      rw [List.getD_eq_getElem?_getD, List.getD_eq_getElem?_getD,
        List.getElem?_append_left hilt]
    have htk : (ts ++ [t]).take i = ts.take i := by
      rw [List.take_append_eq_append_take, Nat.sub_eq_zero_of_le (Nat.le_of_lt hilt),
        List.take_zero, List.append_nil]
    rw [hgd, htk]
  · rw [List.map_singleton]
    have hgd : (ts ++ [t]).getD ts.length [] = t := by
      rw [List.getD_eq_getElem?_getD, List.getElem?_append_right (Nat.le_refl _),
        Nat.sub_self]
      rfl
    have htk : (ts ++ [t]).take ts.length = ts := by
      rw [List.take_append_eq_append_take, Nat.sub_self, List.take_zero,
        List.append_nil, List.take_length]
    rw [hgd, htk]

theorem decodeRun_eq (codec : Codec) (tokens : List (List Char)) :
    decodeRun codec tokens =
      { buffer := acceptedIds tokens,
        count := (acceptedIds tokens).length,
        calls := callsCF tokens,
        windows := windowsCF (acceptedIds tokens),
        chunks := chunksCF codec (acceptedIds tokens) } := by
  induction tokens using List.reverseRecOn with
  | nil => rfl
  | append_singleton ts t ih =>
    rw [decodeRun_snoc, ih, acceptedIds_snoc, callsCF_snoc]
    cases ha : acceptTok t (acceptedIds ts).length with
    | none =>
      rw [acceptStep_none _ _ ha]
      cases ht : turn_token_into_id t (acceptedIds ts).length with
      | none => simp only [decStep, ht]
      | some id =>
        simp only [acceptTok, ht] at ha
        have hle : id ≤ 0 := by
          by_contra hgt
          rw [if_neg hgt] at ha
          cases ha
        simp only [decStep, ht, if_pos hle]
    | some id =>
      rw [acceptStep_some _ _ _ ha]
      cases ht : turn_token_into_id t (acceptedIds ts).length with
      | none => simp only [acceptTok, ht] at ha; cases ha
      | some id' =>
        simp only [acceptTok, ht] at ha
        have hgt : ¬ id' ≤ 0 := by
          by_contra hle
          rw [if_pos hle] at ha
          cases ha
        rw [if_neg hgt] at ha
        injection ha with hid
        subst hid
        simp only [decStep, ht, if_neg hgt]
        rw [windowsCF_snoc, chunksCF_snoc, List.length_append, List.length_singleton]
        by_cases hP : ((acceptedIds ts).length + 1) % 7 = 0 ∧ 27 < (acceptedIds ts).length + 1
        · rw [if_pos hP, if_pos hP, if_pos hP]
          cases hcv : convert_buffer codec (lastN 28 (acceptedIds ts ++ [id']))
              ((acceptedIds ts).length + 1) with
          | none =>
            simp only [hcv]
            rw [show chunkOfWindow codec (lastN 28 (acceptedIds ts ++ [id']),
                (acceptedIds ts).length + 1) = none from by rw [chunkOfWindow, hcv]]
            simp
          | some audio =>
            by_cases hsz : 0 < audio.length
            · simp only [hcv, if_pos hsz]
              rw [show chunkOfWindow codec (lastN 28 (acceptedIds ts ++ [id']),
                  (acceptedIds ts).length + 1) = some audio from by
                rw [chunkOfWindow, hcv]; exact if_pos hsz]
              simp [Option.toList]
            · simp only [hcv, if_neg hsz]
              rw [show chunkOfWindow codec (lastN 28 (acceptedIds ts ++ [id']),
                  (acceptedIds ts).length + 1) = none from by
                rw [chunkOfWindow, hcv]; exact if_neg hsz]
              simp
        · rw [if_neg hP, if_neg hP, if_neg hP]
          simp

theorem lastN_take_overlap (ids : List Int) (c : Nat) (hc : 28 ≤ c)
    (hcl : c + 7 ≤ ids.length) :
    (lastN 28 (ids.take (c + 7))).take 21 = (lastN 28 (ids.take c)).drop 7 := by
  have hlen1 : (ids.take (c + 7)).length = c + 7 := by rw [List.length_take]; omega
  have hlen2 : (ids.take c).length = c := by rw [List.length_take]; omega
  rw [lastN, lastN, hlen1, hlen2, List.drop_take, List.drop_take, List.drop_take,
    List.drop_drop, List.take_take]
  congr 1
  · omega
  · congr 1
    omega

theorem windowsCF_length (ids : List Int) :
    (windowsCF ids).length = (ids.length - 21) / 7 := by
  rw [windowsCF, List.length_map, triggers_length]

theorem windowsCF_getD (ids : List Int) (j : Nat) (hj : j < (ids.length - 21) / 7) :
    (windowsCF ids).getD j ([], 0) = (lastN 28 (ids.take (28 + 7 * j)), 28 + 7 * j) := by
  rw [windowsCF, triggers_eq, List.getD_eq_getElem?_getD, List.getElem?_map,
    List.getElem?_map, List.getElem?_range hj]
  rfl

theorem consume_map_some (l : List α) : consume (l.map some ++ [none]) = l := by
  induction l with
  | nil => rfl
  | cons c rest ih => simp only [List.map_cons, List.cons_append, consume, List.append_eq, ih]

theorem stream_tts_eq (codec : Codec) (net : Payload → HttpResult) (text : List Char)
    (o : OrpheusTTSOptions) :
    stream_tts codec net text o = ⟨(stream_tts_sync codec net text o).items, false⟩ := by
  rw [stream_tts, worker_queue, consume_map_some]

/-! ### Claim theorems -/

/-- C1: for every finite token stream, with `L` the number of accepted IDs,
the number of windows handed to `_convert_buffer` is `(L - 21) / 7` in `Nat`
(which is `max(0, floor((L - 21) / 7))` over the integers); a window is
emitted exactly at the accepted counts that are multiples of 7 exceeding 27;
every emitted window is exactly the last 28 accepted IDs in order (hence 28
elements long); and each window shares its first 21 elements with its
predecessor's last 21. -/
theorem c1_frame_buffer_windows (codec : Codec) (tokens : List (List Char)) :
    (decodeRun codec tokens).windows.length = ((acceptedIds tokens).length - 21) / 7
    ∧ (decodeRun codec tokens).windows =
        (triggers (acceptedIds tokens).length).map
          (fun c => (lastN 28 ((acceptedIds tokens).take c), c))
    ∧ (∀ w ∈ (decodeRun codec tokens).windows,
        w.2 % 7 = 0 ∧ 27 < w.2 ∧ w.1 = lastN 28 ((acceptedIds tokens).take w.2) ∧
          w.1.length = 28)
    ∧ (∀ j, j + 1 < (decodeRun codec tokens).windows.length →
        ((decodeRun codec tokens).windows.getD (j + 1) ([], 0)).1.take 21 =
          ((decodeRun codec tokens).windows.getD j ([], 0)).1.drop 7) := by
  rw [decodeRun_eq]
  refine ⟨windowsCF_length _, rfl, ?_, ?_⟩
  · intro w hw
    rw [windowsCF] at hw
    obtain ⟨c, hc, rfl⟩ := List.mem_map.mp hw
    obtain ⟨h7, h27, hle⟩ := triggers_mem _ _ hc
    refine ⟨h7, h27, rfl, ?_⟩
    rw [lastN, List.length_drop, List.length_take]
    omega
  · intro j hj
    rw [windowsCF_length] at hj
    have h7d : 7 * (((acceptedIds tokens).length - 21) / 7) ≤
        (acceptedIds tokens).length - 21 := Nat.mul_div_le _ 7
    rw [windowsCF_getD _ _ hj, windowsCF_getD _ _ (by omega)]
    rw [show 28 + 7 * (j + 1) = (28 + 7 * j) + 7 from by omega]
    exact lastN_take_overlap _ _ (by omega) (by omega)

/-- C1 witness: 35 uniformly valid tokens yield two windows, and the second
window's first 21 IDs are the first window's last 21. -/
theorem c1_frame_buffer_windows_witness :
    (decodeRun codecOne toksW).windows.length = ((acceptedIds toksW).length - 21) / 7
    ∧ ((decodeRun codecOne toksW).windows.getD 1 ([], 0)).1.take 21 =
        ((decodeRun codecOne toksW).windows.getD 0 ([], 0)).1.drop 7
    ∧ ((decodeRun codecOne toksW).windows.getD 0 ([], 0)).2 % 7 = 0 :=
  ⟨(c1_frame_buffer_windows codecOne toksW).1,
   (c1_frame_buffer_windows codecOne toksW).2.2.2 0 (by decide),
   ((c1_frame_buffer_windows codecOne toksW).2.2.1 _ (by decide)).1⟩

/-- C7: every incoming token is decoded at a position equal to the running
count of previously accepted tokens (0-indexed), not the raw stream offset:
the i-th decode call carries the accepted count of the first i tokens, the
loop state keeps `count = |accepted so far|` with the buffer exactly the
accepted IDs, and a token decoding to `None` or a non-positive ID leaves
buffer, count, windows and chunks untouched (only the call is recorded). -/
theorem c7_position_is_accepted_count (codec : Codec) (tokens : List (List Char)) :
    (decodeRun codec tokens).calls = callsCF tokens
    ∧ (∀ i, i < tokens.length →
        ((decodeRun codec tokens).calls.getD i ([], 0)).2 =
          (acceptedIds (tokens.take i)).length)
    ∧ (decodeRun codec tokens).buffer = acceptedIds tokens
    ∧ (decodeRun codec tokens).count = (acceptedIds tokens).length
    ∧ (∀ (st : DecRun) (u : List Char),
        (turn_token_into_id u st.count = none ∨
          ∃ id, turn_token_into_id u st.count = some id ∧ id ≤ 0) →
        decStep codec st u = { st with calls := st.calls ++ [(u, st.count)] }) := by
  refine ⟨by rw [decodeRun_eq], ?_, by rw [decodeRun_eq], by rw [decodeRun_eq], ?_⟩
  · intro i hi
    rw [decodeRun_eq]
    show ((callsCF tokens).getD i ([], 0)).2 = _
    rw [callsCF, List.getD_eq_getElem?_getD, List.getElem?_map, List.getElem?_range hi]
    rfl
  · intro st u h
    rcases h with ht | ⟨id, ht, hle⟩
    · simp only [decStep, ht]
    · simp only [decStep, ht, if_pos hle]

/-- C7 witness: `<custom_token_5>` decodes to `-5 ≤ 0` at position 0 and is
dropped without touching the state, and in a concrete 35-token run the first
and last decode calls carry positions 0 and 34. -/
theorem c7_position_is_accepted_count_witness :
    decStep codecOne ⟨[], 0, [], [], []⟩ "<custom_token_5>".data =
      ⟨[], 0, [("<custom_token_5>".data, 0)], [], []⟩
    ∧ ((decodeRun codecOne toksW).calls.getD 34 ([], 0)).2 =
        (acceptedIds (toksW.take 34)).length :=
  ⟨(c7_position_is_accepted_count codecOne toksW).2.2.2.2 ⟨[], 0, [], [], []⟩
      "<custom_token_5>".data (Or.inr ⟨-5, by decide, by decide⟩),
   (c7_position_is_accepted_count codecOne toksW).2.1 34 (by decide)⟩

/-- C8: a codec exception or `None` result is caught by `_convert_buffer`
and returned as `none`; the chunk stream is exactly the per-window filter of
the window stream (so a failure on one window cannot affect any other
window); and no emitted chunk is empty. -/
theorem c8_frame_decode_isolation :
    (∀ (codec : Codec) (w : List Int) (c : Nat),
      codec w c = CodecResult.raises → convert_buffer codec w c = none)
    ∧ (∀ (codec : Codec) (w : List Int) (c : Nat),
      codec w c = CodecResult.null → convert_buffer codec w c = none)
    ∧ (∀ (codec : Codec) (tokens : List (List Char)),
        (decodeRun codec tokens).chunks =
          ((decodeRun codec tokens).windows).filterMap (chunkOfWindow codec))
    ∧ (∀ (codec : Codec) (tokens : List (List Char)) (ch : List Int),
        ch ∈ (decodeRun codec tokens).chunks → ch ≠ []) := by
  refine ⟨?_, ?_, ?_, ?_⟩
  · intro codec w c h
    rw [convert_buffer, h]
  · intro codec w c h
    rw [convert_buffer, h]
  · intro codec tokens
    rw [decodeRun_eq]
    rfl
  · intro codec tokens ch hch
    rw [decodeRun_eq] at hch
    obtain ⟨w, _, hw⟩ := List.mem_filterMap.mp hch
    rw [chunkOfWindow] at hw
    split at hw
    · split at hw
      · rename_i hsz
        injection hw with hw
        subst hw
        exact List.ne_nil_of_length_pos hsz
      · cases hw
    · cases hw

/-- C8 witness: with a codec that raises exactly on the second window
(count 35) of a 42-token run, the failure is contained — windows 1 and 3
still produce their chunks, and the chunks are non-empty. -/
theorem c8_frame_decode_isolation_witness :
    convert_buffer codecFail35 [] 35 = none
    ∧ (decodeRun codecFail35 toksF).windows.length = 3
    ∧ (decodeRun codecFail35 toksF).chunks = [[1], [1]]
    ∧ ([1] : List Int) ≠ [] :=
  ⟨c8_frame_decode_isolation.1 codecFail35 [] 35 rfl, by decide, by decide,
   c8_frame_decode_isolation.2.2.2 codecFail35 toksF [1] (by decide)⟩

/-- C2: for every natural `n` and position `p`, decoding the token text
`"<custom_token_" + str(n) + ">"` at `p` yields `n - 10 - (p % 7) * 4096`;
and a token text with no marker occurrence, or whose stripped text does not
end in `>`, or whose extracted characters fail to parse as a numeral,
decodes to `none` rather than a numeric error. -/
theorem c2_token_id_decoder :
    (∀ (n p : Nat),
      turn_token_into_id (customTokenMarker ++ (pyStr n ++ ['>'])) p =
        some ((n : Int) - 10 - ((p % 7 : Nat) : Int) * 4096))
    ∧ (∀ (t : List Char) (p : Nat), noMarkerOcc t = true →
        turn_token_into_id t p = none)
    ∧ (∀ (t : List Char) (p : Nat), (pyStrip t).getLast? ≠ some '>' →
        turn_token_into_id t p = none)
    ∧ (∀ (t : List Char) (p i : Nat),
        rfindIdx customTokenMarker (pyStrip t) = some i →
        pyInt? ((((pyStrip t).drop i).drop 14).dropLast) = none →
        turn_token_into_id t p = none) :=
  ⟨turn_token_marker, turn_token_no_marker, turn_token_no_gt, turn_token_bad_numeral⟩

/-- C2 witness: concrete decodes — a well-formed marker token at position 3,
a marker-free text, a text missing the closing `>`, and a non-numeral
payload. -/
theorem c2_token_id_decoder_witness :
    turn_token_into_id (customTokenMarker ++ (pyStr 30000 ++ ['>'])) 3 =
      some ((30000 : Int) - 10 - ((3 % 7 : Nat) : Int) * 4096)
    ∧ turn_token_into_id "hello".data 5 = none
    ∧ turn_token_into_id "abc<custom_token_12".data 0 = none
    ∧ turn_token_into_id "<custom_token_xx>".data 1 = none :=
  ⟨c2_token_id_decoder.1 30000 3,
   c2_token_id_decoder.2.1 "hello".data 5 (by decide),
   c2_token_id_decoder.2.2.1 "abc<custom_token_12".data 0 (by decide),
   c2_token_id_decoder.2.2.2 "<custom_token_xx>".data 1 0 (by decide) (by decide)⟩

/-- C3: the sync-to-async bridge preserves the stream exactly: for any run
of the synchronous pipeline the worker enqueues every chunk in order and a
terminal sentinel on every exit path (the sentinel is the queue's last
element even when the run raised), the consumer stops cleanly at the
sentinel, and therefore the async stream equals the sync stream as a
sequence and terminates without error. -/
theorem c3_async_equals_sync :
    (∀ (r : GenRun (Nat × List Int)),
      consume (worker_queue r) = r.items ∧ (worker_queue r).getLast? = some none)
    ∧ (∀ (codec : Codec) (net : Payload → HttpResult) (text : List Char)
        (o : OrpheusTTSOptions),
        (stream_tts codec net text o).items = (stream_tts_sync codec net text o).items
        ∧ (stream_tts codec net text o).raised = false) := by
  refine ⟨fun r => ⟨consume_map_some _, ?_⟩, fun codec net text o => ⟨?_, rfl⟩⟩
  · rw [worker_queue, List.getLast?_concat]
  · rw [stream_tts_eq]

/-- C4: a token source that raises after yielding its tokens still lets the
pipeline emit every window and chunk derivable from the yielded tokens
before the stream ends: the sync stream's items do not depend on the
mid-stream error flag, the windows handed to the codec are exactly all
windows derivable from the accepted IDs, and the chunks delivered are
exactly those of the decode run over the yielded tokens. -/
theorem c4_failure_isolation (codec : Codec) (o : OrpheusTTSOptions)
    (net net' : Payload → HttpResult) (text : List Char) (lines : List SSELine)
    (h : net (mkPayload text o) = HttpResult.body lines true)
    (h' : net' (mkPayload text o) = HttpResult.body lines false) :
    (stream_tts_sync codec net text o).items = (stream_tts_sync codec net' text o).items
    ∧ (decodeRun codec (iterate_lines lines)).windows =
        (triggers (acceptedIds (iterate_lines lines)).length).map
          (fun c => (lastN 28 ((acceptedIds (iterate_lines lines)).take c), c))
    ∧ (stream_tts_sync codec net text o).items =
        ((decodeRun codec (iterate_lines lines)).chunks).map
          (fun ch => (o.sampleRate, ch)) := by
  have hs : ∀ (m : Payload → HttpResult) (b : Bool),
      m (mkPayload text o) = HttpResult.body lines b →
      (stream_tts_sync codec m text o).items =
        ((decodeRun codec (iterate_lines lines)).chunks).map
          (fun ch => (o.sampleRate, ch)) := by
    intro m b hm
    rw [stream_tts_sync, generate_tokens_sync, hm]
    rfl
  exact ⟨(hs net true h).trans (hs net' false h').symm, by rw [decodeRun_eq]; rfl,
    hs net true h⟩

/-- C4 witness: a source streaming 28 valid tokens and then raising a
transport error yields the same chunks as its error-free twin — exactly one
window and at most one chunk before termination. -/
theorem c4_failure_isolation_witness :
    (stream_tts_sync codecOne netMidErr "hi".data optsC).items =
      (stream_tts_sync codecOne netMidOk "hi".data optsC).items
    ∧ (decodeRun codecOne (iterate_lines linesF)).windows.length = 1
    ∧ (stream_tts_sync codecOne netMidErr "hi".data optsC).items.length ≤ 1 :=
  ⟨(c4_failure_isolation codecOne optsC netMidErr netMidOk "hi".data linesF rfl rfl).1,
   by decide, by decide⟩

/-- C5 counterexample: with a network whose request raises a transport
error, the token-generation stage does raise, but `stream_tts_sync` swallows
the exception — its caller observes `raised = false`, refuting the claim
that the caller of the synchronous streaming mode observes the raised
exception. -/
theorem c5_counterexample :
    (generate_tokens_sync netErr "hi".data optsC).1.raised = true
    ∧ (stream_tts_sync codecOne netErr "hi".data optsC).raised = false :=
  ⟨rfl, rfl⟩

/-- C5 (amended): a transport error propagates out of the token-generation
stage and through the token decoder, but `stream_tts_sync` catches and logs
it, so the synchronous caller observes a clean (here empty) end of stream,
and the asynchronous consumer likewise observes a clean empty stream. -/
theorem c5_transport_error_swallowed (codec : Codec) (net : Payload → HttpResult)
    (text : List Char) (o : OrpheusTTSOptions)
    (h : net (mkPayload text o) = HttpResult.transportError) :
    (generate_tokens_sync net text o).1.raised = true
    ∧ (token_decoder_sync codec (generate_tokens_sync net text o).1).raised = true
    ∧ (stream_tts_sync codec net text o).raised = false
    ∧ stream_tts codec net text o = ⟨[], false⟩ := by
  have hg : generate_tokens_sync net text o = (⟨[], true⟩, [mkPayload text o]) := by
    rw [generate_tokens_sync, h]
  refine ⟨by rw [hg], by rw [hg]; rfl, rfl, ?_⟩
  rw [stream_tts_eq, stream_tts_sync, hg]
  rfl

/-- C5 witness: the amended behaviour at the concrete failing network. -/
theorem c5_transport_error_swallowed_witness :
    (generate_tokens_sync netErr "hi".data optsC).1.raised = true
    ∧ (stream_tts_sync codecOne netErr "hi".data optsC).raised = false
    ∧ stream_tts codecOne netErr "hi".data optsC = ⟨[], false⟩ :=
  ⟨(c5_transport_error_swallowed codecOne netErr "hi".data optsC rfl).1,
   (c5_transport_error_swallowed codecOne netErr "hi".data optsC rfl).2.2.1,
   (c5_transport_error_swallowed codecOne netErr "hi".data optsC rfl).2.2.2⟩

/-- C6 counterexample: the Orpheus token source has no empty-text guard — on
empty input text it still issues exactly one HTTP request (with the prompt
formatted around the empty string), refuting the claim that no network
request is made for empty or whitespace-only text. -/
theorem c6_counterexample :
    (generate_tokens_sync netEmptyBody [] optsC).2 = [mkPayload [] optsC]
    ∧ (generate_tokens_sync netEmptyBody [] optsC).2.length = 1 :=
  ⟨rfl, rfl⟩

/-- C6 (amended): the empty/whitespace-only short-circuit exists only in the
Together backend: `TogetherTTS.stream_tts_sync` and `stream_tts` return
immediately with zero chunks and zero requests; the Orpheus token source, by
contrast, issues its single request regardless of text content. -/
theorem c6_empty_text_guard (audio : List Char → GenRun (List Int) × List Payload)
    (text : List Char) (rate : Nat) (net : Payload → HttpResult)
    (o : OrpheusTTSOptions) (h : ∀ c ∈ text, isPySpace c = true) :
    together_stream_tts_sync audio text rate = (⟨[], false⟩, [])
    ∧ together_stream_tts audio text rate = (⟨[], false⟩, [])
    ∧ (generate_tokens_sync net text o).2 = [mkPayload text o] := by
  have hguard : (text.isEmpty || (pyStrip text).isEmpty) = true := by
    rw [pyStrip_eq_nil text h]
    simp
  refine ⟨?_, ?_, ?_⟩
  · rw [together_stream_tts_sync]
    simp only [hguard, if_true]
  · rw [together_stream_tts]
    simp only [hguard, if_true]
  · rw [generate_tokens_sync]
    cases net (mkPayload text o) <;> rfl

/-- C6 witness: the amended behaviour on whitespace-only text. -/
theorem c6_empty_text_guard_witness :
    together_stream_tts_sync audioT "  ".data 24000 = (⟨[], false⟩, [])
    ∧ together_stream_tts audioT "  ".data 24000 = (⟨[], false⟩, [])
    ∧ (generate_tokens_sync netEmptyBody "  ".data optsC).2 =
        [mkPayload "  ".data optsC] :=
  ⟨(c6_empty_text_guard audioT "  ".data 24000 netEmptyBody optsC (by decide)).1,
   (c6_empty_text_guard audioT "  ".data 24000 netEmptyBody optsC (by decide)).2.1,
   (c6_empty_text_guard audioT "  ".data 24000 netEmptyBody optsC (by decide)).2.2⟩

/-- C9: whenever the pipeline produces zero chunks, the collect-all modes
return empty-but-valid results rather than failing: `tts` returns a
zero-length byte buffer and `tts_blocking` the configured sample rate paired
with a zero-length sample array. -/
theorem c9_collect_all_empty (codec : Codec) (net : Payload → HttpResult)
    (text : List Char) (o : OrpheusTTSOptions)
    (h : (stream_tts_sync codec net text o).items = []) :
    tts codec net text o = [] ∧ tts_blocking codec net text o = (o.sampleRate, []) := by
  constructor
  · rw [tts, stream_tts_eq]
    simp only [h]
    rfl
  · rw [tts_blocking, h]
    rfl

/-- C9 witness: a transport-failing network produces zero chunks, and both
collect-all modes return their empty results. -/
theorem c9_collect_all_empty_witness :
    tts codecOne netErr "x".data optsC = []
    ∧ tts_blocking codecOne netErr "x".data optsC = (optsC.sampleRate, []) :=
  ⟨(c9_collect_all_empty codecOne netErr "x".data optsC rfl).1,
   (c9_collect_all_empty codecOne netErr "x".data optsC rfl).2⟩

/-- C10: the public entry points are total for every behaviour of the
network and the codec (transport errors, mid-stream failures and codec
exceptions included): the sync and async streams terminate without raising,
and the blocking collect-all always returns the configured sample rate with
(possibly empty) audio. -/
theorem c10_entry_points_never_raise (codec : Codec) (net : Payload → HttpResult)
    (text : List Char) (o : OrpheusTTSOptions) :
    (stream_tts_sync codec net text o).raised = false
    ∧ (stream_tts codec net text o).raised = false
    ∧ (tts_blocking codec net text o).1 = o.sampleRate :=
  ⟨rfl, rfl, rfl⟩
